import Mathlib

/-!
Verification development for the `ODE_PINN_SOFTBC` module
(`src/ode_PINN_softBC.py`): a physics-informed neural network trainer for
second-order boundary-value ODE problems with soft boundary conditions.

Shallow embedding conventions:
* Real-valued tensors of shape `[batch, 1]` become `List ℚ` (one rational per
  row); scalars become `ℚ`.
* The network `forward` and the automatic-differentiation engine are external
  collaborators: they enter as function parameters `yhat`, `D1y_hat`,
  `D2y_hat : ℚ → ℚ` giving the network output and its first and second
  derivative at a point.
* The optimizer's numeric effect on parameters is abstracted away; the
  training loop is embedded as a state machine over recorded histories, the
  current learning rate and the scheduler's step counter, with the per-epoch
  loss values supplied by oracles `ℕ → ℚ` (epoch index to loss value).
* Python integer division, `round` (banker's rounding) and `%` are embedded
  exactly; `%` with a zero divisor is fallible and returns `Option`.
-/

/-- Model state of `ODE_PINN_SOFTBC.__init__` (lines 14-57 of the source).
`f` is the ODE right-hand side, `BC = (kind, yl, yu)` the boundary-condition
tuple, `lambdas` the indexable weight tuple (only indices 1 and 2 are read by
the loss), and the three histories are the loss-record lists. -/
structure ODE_PINN_SOFTBC where
  f : ℚ → ℚ → ℚ → ℚ
  lb : ℚ
  ub : ℚ
  BC : ℤ × ℚ × ℚ
  lambdas : ℕ → ℚ
  n_hidden : ℕ
  n_layers : ℤ
  set_rff : Bool
  train_loss : List ℚ
  validate_loss : List ℚ
  L2_loss : List ℚ

/-- Spec-side error taxonomy (spec section 7). The source constructor never
raises; the `Except` result type below records that fact in the theorems. -/
inductive ConfigurationError where
  | depthTooSmall : ConfigurationError
  | badBounds : ConfigurationError
deriving DecidableEq

namespace ODE_PINN_SOFTBC

/-- Constructor, `__init__` (lines 30-57). The body performs no validation of
`n_layers` or of the bounds: it unconditionally builds the model. The hidden
stack is `range(n_layers - 3)` blocks, empty when `n_layers ≤ 3`. The result
type admits a `ConfigurationError` so that the spec's claim that one is raised
can be stated; the source has no raise statement, hence no error branch. -/
def init (f : ℚ → ℚ → ℚ → ℚ) (lb ub : ℚ) (BC : ℤ × ℚ × ℚ)
    (lambdas : ℕ → ℚ) (n_hidden : ℕ) (n_layers : ℤ) (set_rff : Bool) :
    Except ConfigurationError ODE_PINN_SOFTBC :=
  Except.ok
    { f := f, lb := lb, ub := ub, BC := BC, lambdas := lambdas
      n_hidden := n_hidden, n_layers := n_layers, set_rff := set_rff
      train_loss := [], validate_loss := [], L2_loss := [] }

/-- Number of hidden affine+activation blocks: `range(self.n_layers - 3)`
(lines 54-55); a negative argument yields an empty range. -/
def hidden_block_count (m : ODE_PINN_SOFTBC) : ℕ :=
  (m.n_layers - 3).toNat

/-- Residual loss, `ResidualLoss` (lines 93-133). `x` is the interior batch,
`yhat`, `D1y_hat`, `D2y_hat` the network output and its derivatives delivered
by the external autodiff engine. `Lp` is the interior term (line 103); the
if-chain on `BC[0]` (lines 110-131) produces the pair `(Lb1, Lb2)` of
boundary terms; the result is `Lp + Lb1 + Lb2` (line 133). -/
def ResidualLoss (m : ODE_PINN_SOFTBC) (yhat D1y_hat D2y_hat : ℚ → ℚ)
    (x : List ℚ) : ℚ :=
  let f_hat := fun t => m.f t (yhat t) (D1y_hat t)
  let Lp := ((x.map (fun t => (D2y_hat t - f_hat t) ^ 2)).sum) / (x.length : ℚ)
  let LB :=
    if m.BC.1 = 1 then
      (m.lambdas 1 * (yhat m.lb - m.BC.2.1) ^ 2,
       m.lambdas 2 * (yhat m.ub - m.BC.2.2) ^ 2)
    else if m.BC.1 = 2 then
      (m.lambdas 1 * (yhat m.lb - m.BC.2.1) ^ 2,
       m.lambdas 2 * (D1y_hat m.ub - m.BC.2.2) ^ 2)
    else
      (m.lambdas 1 * (yhat m.lb + D1y_hat m.lb - m.BC.2.1) ^ 2,
       m.lambdas 2 * (D1y_hat m.ub - m.BC.2.2) ^ 2)
  Lp + LB.1 + LB.2

/-- Validation, `Validate` (lines 149-154): a forward pass and a residual-loss
evaluation on a freshly sampled batch; no parameter update is involved. -/
def Validate (m : ODE_PINN_SOFTBC) (yhat D1y_hat D2y_hat : ℚ → ℚ)
    (x : List ℚ) : ℚ :=
  ResidualLoss m yhat D1y_hat D2y_hat x

end ODE_PINN_SOFTBC

/-- Mean of a list of rationals (spec phrasing of the interior term). -/
def listMean (l : List ℚ) : ℚ := l.sum / (l.length : ℚ)

/-- Spec-side unweighted boundary residual at the lower endpoint, per the
table in spec section 4.4. -/
def bres1 (m : ODE_PINN_SOFTBC) (yhat D1y_hat : ℚ → ℚ) : ℚ :=
  if m.BC.1 = 1 ∨ m.BC.1 = 2 then yhat m.lb - m.BC.2.1
  else yhat m.lb + D1y_hat m.lb - m.BC.2.1

/-- Spec-side unweighted boundary residual at the upper endpoint, per the
table in spec section 4.4. -/
def bres2 (m : ODE_PINN_SOFTBC) (yhat D1y_hat : ℚ → ℚ) : ℚ :=
  if m.BC.1 = 1 then yhat m.ub - m.BC.2.2
  else D1y_hat m.ub - m.BC.2.2

/-- C1: the total loss returned by `ResidualLoss` is the batch mean of the
squared interior residual `(D2 - f(x, y_hat, D1))^2`, carrying no weight from
`lambdas` (in particular the value stored at index 0 is never read), plus the
two boundary terms weighted by `lambdas 1` and `lambdas 2` respectively. -/
theorem residualLoss_aggregate (m : ODE_PINN_SOFTBC)
    (yhat D1y_hat D2y_hat : ℚ → ℚ) (x : List ℚ) (c : ℚ) :
    ODE_PINN_SOFTBC.ResidualLoss m yhat D1y_hat D2y_hat x
      = listMean (x.map (fun t => (D2y_hat t - m.f t (yhat t) (D1y_hat t)) ^ 2))
        + m.lambdas 1 * (bres1 m yhat D1y_hat) ^ 2
        + m.lambdas 2 * (bres2 m yhat D1y_hat) ^ 2
    ∧ ODE_PINN_SOFTBC.ResidualLoss
        { m with lambdas := Function.update m.lambdas 0 c } yhat D1y_hat D2y_hat x
      = ODE_PINN_SOFTBC.ResidualLoss m yhat D1y_hat D2y_hat x := by
  constructor
  · unfold ODE_PINN_SOFTBC.ResidualLoss listMean bres1 bres2
    by_cases h1 : m.BC.1 = 1
    · simp [h1]
    · by_cases h2 : m.BC.1 = 2 <;> simp [h1, h2]
  · unfold ODE_PINN_SOFTBC.ResidualLoss
    have u1 : Function.update m.lambdas 0 c 1 = m.lambdas 1 := by
      simp [Function.update]
    have u2 : Function.update m.lambdas 0 c 2 = m.lambdas 2 := by
      simp [Function.update]
    by_cases h1 : m.BC.1 = 1
    · simp [h1, u1, u2]
    · by_cases h2 : m.BC.1 = 2 <;> simp [h1, h2, u1, u2]

/-- C2: `ResidualLoss` selects the boundary terms by case on the BC kind:
kind 1 gives `w1*(y_hat(lb) - yl)^2` and `w2*(y_hat(ub) - yu)^2`; kind 2 gives
`w1*(y_hat(lb) - yl)^2` and `w2*(D1y_hat(ub) - yu)^2`; and every kind other
than 1 and 2 (kind 3 included) takes the Robin-Neumann branch
`w1*(y_hat(lb) + D1y_hat(lb) - yl)^2` and `w2*(D1y_hat(ub) - yu)^2`, without
failing. -/
theorem residualLoss_bc_cases (m : ODE_PINN_SOFTBC)
    (yhat D1y_hat D2y_hat : ℚ → ℚ) (x : List ℚ) :
    (m.BC.1 = 1 →
      ODE_PINN_SOFTBC.ResidualLoss m yhat D1y_hat D2y_hat x
        = ((x.map (fun t => (D2y_hat t - m.f t (yhat t) (D1y_hat t)) ^ 2)).sum)
            / (x.length : ℚ)
          + m.lambdas 1 * (yhat m.lb - m.BC.2.1) ^ 2
          + m.lambdas 2 * (yhat m.ub - m.BC.2.2) ^ 2)
    ∧ (m.BC.1 = 2 →
      ODE_PINN_SOFTBC.ResidualLoss m yhat D1y_hat D2y_hat x
        = ((x.map (fun t => (D2y_hat t - m.f t (yhat t) (D1y_hat t)) ^ 2)).sum)
            / (x.length : ℚ)
          + m.lambdas 1 * (yhat m.lb - m.BC.2.1) ^ 2
          + m.lambdas 2 * (D1y_hat m.ub - m.BC.2.2) ^ 2)
    ∧ (m.BC.1 ≠ 1 → m.BC.1 ≠ 2 →
      ODE_PINN_SOFTBC.ResidualLoss m yhat D1y_hat D2y_hat x
        = ((x.map (fun t => (D2y_hat t - m.f t (yhat t) (D1y_hat t)) ^ 2)).sum)
            / (x.length : ℚ)
          + m.lambdas 1 * (yhat m.lb + D1y_hat m.lb - m.BC.2.1) ^ 2
          + m.lambdas 2 * (D1y_hat m.ub - m.BC.2.2) ^ 2) := by
  refine ⟨fun h1 => ?_, fun h2 => ?_, fun h1 h2 => ?_⟩
  · unfold ODE_PINN_SOFTBC.ResidualLoss
    simp [h1]
  · unfold ODE_PINN_SOFTBC.ResidualLoss
    have h1 : m.BC.1 ≠ 1 := by rw [h2]; decide
    simp [h1, h2]
  · unfold ODE_PINN_SOFTBC.ResidualLoss
    simp [h1, h2]

/-- Python's built-in `round` on a rational value: nearest integer, ties to
even (banker's rounding). Used by the source at `round(train_num/3)`
(line 195) and `round(n_train_batches/5)` (line 190). -/
def roundHalfEven (q : ℚ) : ℤ :=
  let n := ⌊q⌋
  let r := q - (n : ℚ)
  if r < 1 / 2 then n
  else if 1 / 2 < r then n + 1
  else if n % 2 = 0 then n else n + 1

/-- Python `%` on naturals: fallible, `none` models `ZeroDivisionError`. -/
def pyMod (a b : ℕ) : Option ℕ :=
  if b = 0 then none else some (a % b)

/-- Number of batches yielded per epoch by the train dataloader built in
`construct_train_dataloader` (lines 73-83): a `DataLoader` with
`drop_last=False` yields `ceil(train_sample_num / train_batch_size)`
batches. -/
def n_train_batches (train_batch_size train_sample_num : ℕ) : ℕ :=
  (train_sample_num + train_batch_size - 1) / train_batch_size

/-- Validation batch size computed at line 195: `round(train_num/3)`. -/
def validate_num (train_num : ℕ) : ℕ :=
  (roundHalfEven ((train_num : ℚ) / 3)).toNat

/-- Display condition for step `i` (0-based) of an epoch with `n` train
batches, line 190: `(i==0) or ((i+1) % round(n/5) == 0)`. Python's `or`
short-circuits, so the modulus is only evaluated when `i ≠ 0`; a zero modulus
there is a `ZeroDivisionError`, modelled as `none`. -/
def display_step_cond (n i : ℕ) : Option Bool :=
  if i = 0 then some true
  else (pyMod (i + 1) (roundHalfEven ((n : ℚ) / 5)).toNat).map (fun r => r == 0)

/-- Adjacent differences, `np.diff`: `d[i] = t[i+1] - t[i]`. -/
def npDiff : List ℚ → List ℚ
  | a :: b :: rest => (b - a) :: npDiff (b :: rest)
  | _ => []

/-- Plateau computation of lines 214-217 on the recorded validation-loss
list `vl` (most recent last): reverse and take the 26 most recent values
(the slice `[-1:-27:-1]`), form the 25 adjacent differences, divide
elementwise by the first 25 entries of the reversed slice, and test whether
all 25 absolute relative changes are below `0.0001`. -/
def plateauCheck (vl : List ℚ) : Bool :=
  let temp := vl.reverse.take 26
  let diff := npDiff temp
  let rel := (diff.zip (temp.take 25)).map (fun p => |p.1 / p.2|)
  (rel.countP (fun q => decide (q < 1 / 10000))) == 25

/-- Reason recorded for an early exit of the epoch loop. -/
inductive StopReason where
  | converged : StopReason
  | plateau : StopReason
deriving DecidableEq

/-- Arguments of `Train` (lines 159-161) that the epoch loop reads. -/
structure TrainCfg where
  train_num : ℕ
  train_batch_size : ℕ
  learning_rate : ℚ
  lr_step_size : ℕ
  min_lr : ℚ
  lr_gamma : ℚ
  abs_tolerance : ℚ
  max_epoch : ℕ
  compute_L2_loss : Bool

/-- Mutable state of one `Train` invocation: the three history lists (the
model's `train_loss`, `validate_loss`, `L2_loss` fields), the optimizer's
current learning rate, the `StepLR` scheduler's internal epoch counter, and
whether (and why) the loop has broken out. -/
structure TrainState where
  trainLoss : List ℚ
  validateLoss : List ℚ
  L2Loss : List ℚ
  lr : ℚ
  sched_count : ℕ
  stopped : Option StopReason
deriving DecidableEq

/-- One `scheduler.step()` of `StepLR(optimizer, lr_step_size, lr_gamma)`
(lines 167, 220): the internal epoch counter advances, and each time it
reaches a multiple of `lr_step_size` the learning rate is multiplied by
`lr_gamma`. -/
def scheduler_step (cfg : TrainCfg) (s : TrainState) : TrainState :=
  let c := s.sched_count + 1
  { s with
    sched_count := c
    lr := if c % cfg.lr_step_size = 0 then s.lr * cfg.lr_gamma else s.lr }

/-- End-of-epoch recording (lines 194-200): append this epoch's average train
loss and fresh validation loss, and the L2 error when enabled. The numeric
loss values are supplied by the oracles `tOf`, `vOf`, `l2Of` as functions of
the epoch index, which equals the current length of the validation history. -/
def appendHists (cfg : TrainCfg) (tOf vOf l2Of : ℕ → ℚ) (s : TrainState) :
    TrainState :=
  let e := s.validateLoss.length
  { s with
    validateLoss := s.validateLoss ++ [vOf e]
    trainLoss := s.trainLoss ++ [tOf e]
    L2Loss := if cfg.compute_L2_loss then s.L2Loss ++ [l2Of e] else s.L2Loss }

/-- The if/elif chain of lines 211-220, evaluated on the state after the
epoch's histories have been appended: convergence break, then (only when
more than 26 validation samples exist) the plateau test, then a scheduler
step when the learning rate still exceeds the floor, else nothing. -/
def stopRule (cfg : TrainCfg) (s : TrainState) : TrainState :=
  if s.validateLoss.getLastD 0 < cfg.abs_tolerance then
    { s with stopped := some StopReason.converged }
  else if 26 < s.validateLoss.length then
    if plateauCheck s.validateLoss then { s with stopped := some StopReason.plateau }
    else s
  else if cfg.min_lr < s.lr then scheduler_step cfg s
  else s

/-- One iteration of the epoch loop (lines 169-220). A `break` of the source
loop is modelled by the `stopped` flag, which freezes the state. -/
def runEpoch (cfg : TrainCfg) (tOf vOf l2Of : ℕ → ℚ) (s : TrainState) :
    TrainState :=
  if s.stopped.isSome then s
  else stopRule cfg (appendHists cfg tOf vOf l2Of s)

/-- Iterated epochs: `for epoch in range(k)` with the break flag. -/
def runEpochs (cfg : TrainCfg) (tOf vOf l2Of : ℕ → ℚ) :
    ℕ → TrainState → TrainState
  | 0, s => s
  | k + 1, s => runEpochs cfg tOf vOf l2Of k (runEpoch cfg tOf vOf l2Of s)

/-- Initial state of a `Train` call (lines 164-168): histories continue from
the model's fields, the optimizer starts at `learning_rate`, the scheduler
counter at zero, and the loop has not broken. -/
def startState (m : ODE_PINN_SOFTBC) (cfg : TrainCfg) : TrainState :=
  { trainLoss := m.train_loss
    validateLoss := m.validate_loss
    L2Loss := m.L2_loss
    lr := cfg.learning_rate
    sched_count := 0
    stopped := none }

/-- Whole `Train` run: `max_epoch` loop iterations from the start state. -/
def Train (m : ODE_PINN_SOFTBC) (cfg : TrainCfg) (tOf vOf l2Of : ℕ → ℚ) :
    TrainState :=
  runEpochs cfg tOf vOf l2Of cfg.max_epoch (startState m cfg)

/-- Appending a final element determines `getLastD`. -/
theorem getLastD_append_one (l : List ℚ) (a d : ℚ) : (l ++ [a]).getLastD d = a := by
  simp [List.getLastD_eq_getLast?]

/-- Field-level description of the end-of-epoch recording step. -/
theorem appendHists_fields (cfg : TrainCfg) (tOf vOf l2Of : ℕ → ℚ)
    (s : TrainState) :
    (appendHists cfg tOf vOf l2Of s).validateLoss
        = s.validateLoss ++ [vOf s.validateLoss.length]
    ∧ (appendHists cfg tOf vOf l2Of s).trainLoss
        = s.trainLoss ++ [tOf s.validateLoss.length]
    ∧ (appendHists cfg tOf vOf l2Of s).L2Loss
        = (if cfg.compute_L2_loss then s.L2Loss ++ [l2Of s.validateLoss.length]
           else s.L2Loss)
    ∧ (appendHists cfg tOf vOf l2Of s).lr = s.lr
    ∧ (appendHists cfg tOf vOf l2Of s).sched_count = s.sched_count
    ∧ (appendHists cfg tOf vOf l2Of s).stopped = s.stopped :=
  ⟨rfl, rfl, rfl, rfl, rfl, rfl⟩

/-- The convergence branch of the stopping rule. -/
theorem stopRule_converged (cfg : TrainCfg) (r : TrainState)
    (h : r.validateLoss.getLastD 0 < cfg.abs_tolerance) :
    stopRule cfg r = { r with stopped := some StopReason.converged } := by
  unfold stopRule
  rw [if_pos h]

/-- The plateau branch of the stopping rule. -/
theorem stopRule_plateau (cfg : TrainCfg) (r : TrainState)
    (h1 : ¬ r.validateLoss.getLastD 0 < cfg.abs_tolerance)
    (h2 : 26 < r.validateLoss.length)
    (h3 : plateauCheck r.validateLoss = true) :
    stopRule cfg r = { r with stopped := some StopReason.plateau } := by
  unfold stopRule
  rw [if_neg h1, if_pos h2, if_pos h3]

/-- The decay branch of the stopping rule. -/
theorem stopRule_decay (cfg : TrainCfg) (r : TrainState)
    (h1 : ¬ r.validateLoss.getLastD 0 < cfg.abs_tolerance)
    (h2 : ¬ 26 < r.validateLoss.length)
    (h3 : cfg.min_lr < r.lr) :
    stopRule cfg r = scheduler_step cfg r := by
  unfold stopRule
  rw [if_neg h1, if_neg h2, if_pos h3]

/-- The stopping rule never changes the three history lists. -/
theorem stopRule_hists (cfg : TrainCfg) (r : TrainState) :
    (stopRule cfg r).trainLoss = r.trainLoss
    ∧ (stopRule cfg r).validateLoss = r.validateLoss
    ∧ (stopRule cfg r).L2Loss = r.L2Loss := by
  unfold stopRule scheduler_step
  split_ifs <;> simp

/-- Once more than 26 validation samples are recorded, the stopping rule
leaves the learning rate and scheduler counter untouched: the plateau
`elif` shadows the decay `elif`. -/
theorem stopRule_sched_shadowed (cfg : TrainCfg) (r : TrainState)
    (h2 : 26 < r.validateLoss.length) :
    (stopRule cfg r).lr = r.lr ∧ (stopRule cfg r).sched_count = r.sched_count := by
  unfold stopRule scheduler_step
  split_ifs <;> simp_all

/-- At or below the floor, the stopping rule never touches the rate. -/
theorem stopRule_lr_floor (cfg : TrainCfg) (r : TrainState)
    (h : ¬ cfg.min_lr < r.lr) :
    (stopRule cfg r).lr = r.lr ∧ (stopRule cfg r).sched_count = r.sched_count := by
  unfold stopRule scheduler_step
  split_ifs <;> simp_all

/-- A broken-out loop state is frozen by further epoch iterations. -/
theorem runEpoch_frozen (cfg : TrainCfg) (tOf vOf l2Of : ℕ → ℚ)
    (r : TrainState) (h : r.stopped.isSome) :
    runEpoch cfg tOf vOf l2Of r = r := by
  simp [runEpoch, h]

/-- A broken-out loop state is frozen by any number of further iterations. -/
theorem runEpochs_frozen (cfg : TrainCfg) (tOf vOf l2Of : ℕ → ℚ)
    (k : ℕ) (r : TrainState) (h : r.stopped.isSome) :
    runEpochs cfg tOf vOf l2Of k r = r := by
  induction k with
  | zero => rfl
  | succ k ih => rw [runEpochs, runEpoch_frozen cfg tOf vOf l2Of r h]; exact ih

/-- One epoch never touches the rate or the scheduler counter once the rate
is at or below the configured floor. -/
theorem runEpoch_lr_floor (cfg : TrainCfg) (tOf vOf l2Of : ℕ → ℚ)
    (r : TrainState) (h : r.lr ≤ cfg.min_lr) :
    (runEpoch cfg tOf vOf l2Of r).lr = r.lr
    ∧ (runEpoch cfg tOf vOf l2Of r).sched_count = r.sched_count := by
  by_cases hs : r.stopped.isSome
  · rw [runEpoch_frozen cfg tOf vOf l2Of r hs]; exact ⟨rfl, rfl⟩
  · have hrw : runEpoch cfg tOf vOf l2Of r
        = stopRule cfg (appendHists cfg tOf vOf l2Of r) := by
      simp [runEpoch, hs]
    have hlr : ¬ cfg.min_lr < (appendHists cfg tOf vOf l2Of r).lr := by
      have := (appendHists_fields cfg tOf vOf l2Of r).2.2.2.1
      rw [this]
      exact not_lt.mpr h
    have hfl := stopRule_lr_floor cfg (appendHists cfg tOf vOf l2Of r) hlr
    rw [hrw]
    rw [hfl.1, hfl.2]
    exact ⟨(appendHists_fields cfg tOf vOf l2Of r).2.2.2.1,
           (appendHists_fields cfg tOf vOf l2Of r).2.2.2.2.1⟩

/-- Any number of epochs never touches the rate or the scheduler counter
once the rate is at or below the configured floor. -/
theorem runEpochs_lr_floor (cfg : TrainCfg) (tOf vOf l2Of : ℕ → ℚ) :
    ∀ (k : ℕ) (r : TrainState), r.lr ≤ cfg.min_lr →
    (runEpochs cfg tOf vOf l2Of k r).lr = r.lr
    ∧ (runEpochs cfg tOf vOf l2Of k r).sched_count = r.sched_count := by
  intro k
  induction k with
  | zero => exact fun r _ => ⟨rfl, rfl⟩
  | succ k ih =>
    intro r h
    have h1 := runEpoch_lr_floor cfg tOf vOf l2Of r h
    have h2 := ih (runEpoch cfg tOf vOf l2Of r) (by rw [h1.1]; exact h)
    rw [runEpochs]
    exact ⟨h2.1.trans h1.1, h2.2.trans h1.2⟩

/-- One epoch only ever extends each history list. -/
theorem runEpoch_hist_extend (cfg : TrainCfg) (tOf vOf l2Of : ℕ → ℚ)
    (s : TrainState) :
    ∃ a b c, (runEpoch cfg tOf vOf l2Of s).trainLoss = s.trainLoss ++ a
    ∧ (runEpoch cfg tOf vOf l2Of s).validateLoss = s.validateLoss ++ b
    ∧ (runEpoch cfg tOf vOf l2Of s).L2Loss = s.L2Loss ++ c := by
  by_cases hs : s.stopped.isSome
  · exact ⟨[], [], [], by simp [runEpoch_frozen cfg tOf vOf l2Of s hs]⟩
  · have hrw : runEpoch cfg tOf vOf l2Of s
        = stopRule cfg (appendHists cfg tOf vOf l2Of s) := by
      simp [runEpoch, hs]
    have hsr := stopRule_hists cfg (appendHists cfg tOf vOf l2Of s)
    have haf := appendHists_fields cfg tOf vOf l2Of s
    refine ⟨[tOf s.validateLoss.length], [vOf s.validateLoss.length],
      if cfg.compute_L2_loss then [l2Of s.validateLoss.length] else [], ?_, ?_, ?_⟩
    · rw [hrw, hsr.1, haf.2.1]
    · rw [hrw, hsr.2.1, haf.1]
    · rw [hrw, hsr.2.2, haf.2.2.1]
      by_cases hL : cfg.compute_L2_loss <;> simp [hL]

/-- Any number of epochs only ever extends each history list. -/
theorem runEpochs_hist_extend (cfg : TrainCfg) (tOf vOf l2Of : ℕ → ℚ) :
    ∀ (k : ℕ) (s : TrainState),
    ∃ a b c, (runEpochs cfg tOf vOf l2Of k s).trainLoss = s.trainLoss ++ a
    ∧ (runEpochs cfg tOf vOf l2Of k s).validateLoss = s.validateLoss ++ b
    ∧ (runEpochs cfg tOf vOf l2Of k s).L2Loss = s.L2Loss ++ c := by
  intro k
  induction k with
  | zero => exact fun s => ⟨[], [], [], by simp [runEpochs]⟩
  | succ k ih =>
    intro s
    obtain ⟨a1, b1, c1, h1, h2, h3⟩ := runEpoch_hist_extend cfg tOf vOf l2Of s
    obtain ⟨a2, b2, c2, g1, g2, g3⟩ := ih (runEpoch cfg tOf vOf l2Of s)
    refine ⟨a1 ++ a2, b1 ++ b2, c1 ++ c2, ?_, ?_, ?_⟩
    · rw [runEpochs, g1, h1, List.append_assoc]
    · rw [runEpochs, g2, h2, List.append_assoc]
    · rw [runEpochs, g3, h3, List.append_assoc]

/-- Constant validation/train loss oracle with value 1. -/
def vOne : ℕ → ℚ := fun _ => 1

/-- Constant loss oracle with value 2. -/
def vTwo : ℕ → ℚ := fun _ => 2

/-- Constant loss oracle strictly below the default absolute tolerance. -/
def vSmall : ℕ → ℚ := fun _ => 1 / 100000

/-- Configuration with the source's default tolerances and a long decay
interval. -/
def cfgP : TrainCfg :=
  { train_num := 120, train_batch_size := 32, learning_rate := 1
    lr_step_size := 100, min_lr := 1 / 2000, lr_gamma := 1 / 2
    abs_tolerance := 1 / 10000, max_epoch := 3000, compute_L2_loss := false }

/-- Configuration with a decay step at every epoch. -/
def cfgD : TrainCfg :=
  { train_num := 120, train_batch_size := 32, learning_rate := 1
    lr_step_size := 1, min_lr := 1 / 2000, lr_gamma := 1 / 2
    abs_tolerance := 1 / 10000, max_epoch := 3000, compute_L2_loss := false }

/-- Mid-training state with 25 recorded epochs of constant validation loss. -/
def s25 : TrainState :=
  { trainLoss := List.replicate 25 1, validateLoss := List.replicate 25 1
    L2Loss := [], lr := 1, sched_count := 0, stopped := none }

/-- Mid-training state with 26 recorded epochs of constant validation loss. -/
def s26 : TrainState :=
  { trainLoss := List.replicate 26 1, validateLoss := List.replicate 26 1
    L2Loss := [], lr := 1, sched_count := 0, stopped := none }

/-- Fresh state with empty histories. -/
def s0 : TrainState :=
  { trainLoss := [], validateLoss := [], L2Loss := []
    lr := 1, sched_count := 0, stopped := none }

/-- C5: an epoch whose recorded validation loss is strictly below the
absolute tolerance makes the loop break with the converged reason, with no
learning-rate decay in that epoch (the convergence branch precedes both the
plateau branch and the decay branch), and a broken-out state is left
untouched by any further iterations of the loop. -/
theorem converged_stop_priority (cfg : TrainCfg) (tOf vOf l2Of : ℕ → ℚ)
    (s : TrainState) (hs : s.stopped = none)
    (hv : vOf s.validateLoss.length < cfg.abs_tolerance) :
    (runEpoch cfg tOf vOf l2Of s).stopped = some StopReason.converged
    ∧ (runEpoch cfg tOf vOf l2Of s).lr = s.lr
    ∧ (runEpoch cfg tOf vOf l2Of s).sched_count = s.sched_count
    ∧ ∀ (k : ℕ) (r : TrainState), r.stopped.isSome →
        runEpochs cfg tOf vOf l2Of k r = r := by
  have hs' : ¬ s.stopped.isSome = true := by rw [hs]; simp
  have hrw : runEpoch cfg tOf vOf l2Of s
      = stopRule cfg (appendHists cfg tOf vOf l2Of s) := by
    simp [runEpoch, hs']
  have haf := appendHists_fields cfg tOf vOf l2Of s
  have hc : (appendHists cfg tOf vOf l2Of s).validateLoss.getLastD 0
      < cfg.abs_tolerance := by
    rw [haf.1, getLastD_append_one]; exact hv
  rw [hrw, stopRule_converged cfg _ hc]
  exact ⟨rfl, haf.2.2.2.1, haf.2.2.2.2.1,
    fun k r h => runEpochs_frozen cfg tOf vOf l2Of k r h⟩

/-- C5 witness: with empty history and a validation loss of `1/100000`
against tolerance `1/10000`, the first epoch stops with the converged
reason. -/
theorem converged_stop_priority_witness :
    (runEpoch cfgP vSmall vSmall vSmall s0).stopped = some StopReason.converged :=
  (converged_stop_priority cfgP vSmall vSmall vSmall s0 rfl
    (by norm_num [vSmall, cfgP])).1

/-- C3 counterexample: a completed epoch after which exactly 26 validation
losses are recorded, all 25 relative changes of those 26 values being zero
(well below `1e-4`), yet the loop does not stop: the source requires the
history length to exceed 26 before the plateau test runs. -/
theorem plateau_at_26_cex :
    (runEpoch cfgP vOne vOne vOne s25).validateLoss.length = 26
    ∧ plateauCheck ((runEpoch cfgP vOne vOne vOne s25).validateLoss) = true
    ∧ (runEpoch cfgP vOne vOne vOne s25).stopped = none := by
  refine ⟨?_, ?_, ?_⟩ <;>
    norm_num [runEpoch, stopRule, appendHists, scheduler_step, plateauCheck,
      npDiff, List.replicate, List.countP_cons, List.countP_nil, abs,
      List.getLastD, cfgP, s25, vOne]

/-- C3 amended: when the post-epoch validation history holds more than 26
entries (at least 27, not 26 as claimed) and the source's plateau
computation on it succeeds, the loop stops at that epoch whatever the
absolute tolerance is; the recorded reason is the plateau one whenever the
convergence branch did not fire first. -/
theorem plateau_stop_amended (cfg : TrainCfg) (tOf vOf l2Of : ℕ → ℚ)
    (s : TrainState)
    (h26 : 26 < s.validateLoss.length + 1)
    (hpl : plateauCheck (s.validateLoss ++ [vOf s.validateLoss.length]) = true) :
    (runEpoch cfg tOf vOf l2Of s).stopped.isSome = true
    ∧ (s.stopped = none → ¬ vOf s.validateLoss.length < cfg.abs_tolerance →
        (runEpoch cfg tOf vOf l2Of s).stopped = some StopReason.plateau) := by
  by_cases hs : s.stopped.isSome = true
  · refine ⟨?_, ?_⟩
    · rw [runEpoch_frozen cfg tOf vOf l2Of s hs]; exact hs
    · intro hnone; rw [hnone] at hs; simp at hs
  · have hrw : runEpoch cfg tOf vOf l2Of s
        = stopRule cfg (appendHists cfg tOf vOf l2Of s) := by
      simp [runEpoch, hs]
    have haf := appendHists_fields cfg tOf vOf l2Of s
    have hlen : 26 < (appendHists cfg tOf vOf l2Of s).validateLoss.length := by
      rw [haf.1]; simpa using h26
    have hlast : (appendHists cfg tOf vOf l2Of s).validateLoss.getLastD 0
        = vOf s.validateLoss.length := by
      rw [haf.1, getLastD_append_one]
    have hpl' : plateauCheck (appendHists cfg tOf vOf l2Of s).validateLoss = true := by
      rw [haf.1]; exact hpl
    by_cases hcv : (appendHists cfg tOf vOf l2Of s).validateLoss.getLastD 0
        < cfg.abs_tolerance
    · rw [hrw, stopRule_converged cfg _ hcv]
      refine ⟨rfl, fun _ hnc => absurd ?_ hnc⟩
      rw [hlast] at hcv; exact hcv
    · rw [hrw, stopRule_plateau cfg _ hcv hlen hpl']
      exact ⟨rfl, fun _ _ => rfl⟩

/-- C3 witness: with 26 recorded constant losses, the 27th epoch of equal
loss triggers the plateau stop even though the tolerance (1/10000) is far
below the loss value 1. -/
theorem plateau_stop_amended_witness :
    (runEpoch cfgP vOne vOne vOne s26).stopped = some StopReason.plateau := by
  have h := plateau_stop_amended cfgP vOne vOne vOne s26
    (by norm_num [s26])
    (by norm_num [s26, vOne, plateauCheck, npDiff, List.replicate,
      List.countP_cons, List.countP_nil, abs])
  exact h.2 rfl (by norm_num [vOne, cfgP])

/-- C4 counterexample: a completed epoch with 27 recorded validation losses,
no convergence (latest loss 2 against tolerance 1/10000), no plateau (the
last relative change is 1/2), and a learning rate of 1 far above the floor
1/2000 with `lr_step_size = 1`; the claim says the scheduler advances, but
the scheduler counter and the rate are untouched, because the plateau
`elif` was entered and the decay `elif` is therefore skipped. -/
theorem lr_decay_skipped_cex :
    (runEpoch cfgD vTwo vTwo vTwo s26).stopped = none
    ∧ cfgD.min_lr < s26.lr
    ∧ (runEpoch cfgD vTwo vTwo vTwo s26).sched_count = s26.sched_count
    ∧ (runEpoch cfgD vTwo vTwo vTwo s26).lr = s26.lr := by
  refine ⟨?_, ?_, ?_, ?_⟩ <;>
    norm_num [runEpoch, stopRule, appendHists, scheduler_step, plateauCheck,
      npDiff, List.replicate, List.countP_cons, List.countP_nil, abs,
      List.getLastD, cfgD, s26, vTwo]

/-- C4 amended: in a completed epoch where the convergence branch does not
fire and at most 26 validation losses are recorded after the epoch, a rate
above the floor advances the step-decay scheduler (multiplying the rate by
the decay factor once the scheduler counter hits a multiple of
`lr_step_size`); in epochs whose post-epoch history exceeds 26 entries the
scheduler is never advanced, the plateau branch shadowing the decay branch;
and once the rate is at or below the floor, no decay step ever occurs
again. -/
theorem lr_decay_amended (cfg : TrainCfg) (tOf vOf l2Of : ℕ → ℚ)
    (s : TrainState) (hs : s.stopped = none)
    (hnc : ¬ vOf s.validateLoss.length < cfg.abs_tolerance)
    (hlen : s.validateLoss.length + 1 ≤ 26)
    (hlr : cfg.min_lr < s.lr) :
    (runEpoch cfg tOf vOf l2Of s).sched_count = s.sched_count + 1
    ∧ (runEpoch cfg tOf vOf l2Of s).lr
        = (if (s.sched_count + 1) % cfg.lr_step_size = 0
           then s.lr * cfg.lr_gamma else s.lr)
    ∧ (∀ r : TrainState, r.stopped = none → 26 < r.validateLoss.length + 1 →
        (runEpoch cfg tOf vOf l2Of r).lr = r.lr
        ∧ (runEpoch cfg tOf vOf l2Of r).sched_count = r.sched_count)
    ∧ (∀ (k : ℕ) (r : TrainState), r.lr ≤ cfg.min_lr →
        (runEpochs cfg tOf vOf l2Of k r).lr = r.lr
        ∧ (runEpochs cfg tOf vOf l2Of k r).sched_count = r.sched_count) := by
  have hs' : ¬ s.stopped.isSome = true := by rw [hs]; simp
  have hrw : runEpoch cfg tOf vOf l2Of s
      = stopRule cfg (appendHists cfg tOf vOf l2Of s) := by
    simp [runEpoch, hs']
  have haf := appendHists_fields cfg tOf vOf l2Of s
  have hc : ¬ (appendHists cfg tOf vOf l2Of s).validateLoss.getLastD 0
      < cfg.abs_tolerance := by
    rw [haf.1, getLastD_append_one]; exact hnc
  have h26 : ¬ 26 < (appendHists cfg tOf vOf l2Of s).validateLoss.length := by
    rw [haf.1]; simp; omega
  have h3 : cfg.min_lr < (appendHists cfg tOf vOf l2Of s).lr := by
    rw [haf.2.2.2.1]; exact hlr
  refine ⟨?_, ?_, ?_, ?_⟩
  · rw [hrw, stopRule_decay cfg _ hc h26 h3]
    show (appendHists cfg tOf vOf l2Of s).sched_count + 1 = s.sched_count + 1
    rw [haf.2.2.2.2.1]
  · rw [hrw, stopRule_decay cfg _ hc h26 h3]
    show (if ((appendHists cfg tOf vOf l2Of s).sched_count + 1) % cfg.lr_step_size = 0
          then (appendHists cfg tOf vOf l2Of s).lr * cfg.lr_gamma
          else (appendHists cfg tOf vOf l2Of s).lr) = _
    rw [haf.2.2.2.2.1, haf.2.2.2.1]
  · intro r hrs hr26
    have hrs' : ¬ r.stopped.isSome = true := by rw [hrs]; simp
    have hrrw : runEpoch cfg tOf vOf l2Of r
        = stopRule cfg (appendHists cfg tOf vOf l2Of r) := by
      simp [runEpoch, hrs']
    have hraf := appendHists_fields cfg tOf vOf l2Of r
    have hr26' : 26 < (appendHists cfg tOf vOf l2Of r).validateLoss.length := by
      rw [hraf.1]; simpa using hr26
    have hsh := stopRule_sched_shadowed cfg (appendHists cfg tOf vOf l2Of r) hr26'
    rw [hrrw]
    exact ⟨hsh.1.trans hraf.2.2.2.1, hsh.2.trans hraf.2.2.2.2.1⟩
  · exact runEpochs_lr_floor cfg tOf vOf l2Of

/-- C4 witness: from a 25-entry history at loss 1, tolerance 1/10000, rate 1
above floor 1/2000 and `lr_step_size = 1`, the epoch advances the scheduler
counter to 1 and halves the rate. -/
theorem lr_decay_amended_witness :
    (runEpoch cfgD vOne vOne vOne s25).sched_count = 1
    ∧ (runEpoch cfgD vOne vOne vOne s25).lr = 1 / 2 := by
  have h := lr_decay_amended cfgD vOne vOne vOne s25 rfl
    (by norm_num [vOne, cfgD]) (by norm_num [s25]) (by norm_num [cfgD, s25])
  refine ⟨h.1.trans (by norm_num [s25]), h.2.1.trans ?_⟩
  norm_num [s25, cfgD]

/-- C10: the three history lists are created empty by the constructor; a
completed (non-broken) epoch appends exactly one entry to the train-loss and
validation-loss histories, one entry to the L2 history exactly when L2
computation is enabled; and a whole `Train` run only extends the model's
histories, never modifying or removing recorded entries. -/
theorem histories_append_only :
    (∀ (f : ℚ → ℚ → ℚ → ℚ) (lb ub : ℚ) (BC : ℤ × ℚ × ℚ) (lam : ℕ → ℚ)
        (nh : ℕ) (nl : ℤ) (srff : Bool) (m : ODE_PINN_SOFTBC),
        ODE_PINN_SOFTBC.init f lb ub BC lam nh nl srff = Except.ok m →
        m.train_loss = [] ∧ m.validate_loss = [] ∧ m.L2_loss = [])
    ∧ (∀ (cfg : TrainCfg) (tOf vOf l2Of : ℕ → ℚ) (s : TrainState),
        s.stopped = none →
        (runEpoch cfg tOf vOf l2Of s).trainLoss
            = s.trainLoss ++ [tOf s.validateLoss.length]
        ∧ (runEpoch cfg tOf vOf l2Of s).validateLoss
            = s.validateLoss ++ [vOf s.validateLoss.length]
        ∧ (cfg.compute_L2_loss = true →
            (runEpoch cfg tOf vOf l2Of s).L2Loss
              = s.L2Loss ++ [l2Of s.validateLoss.length])
        ∧ (cfg.compute_L2_loss = false →
            (runEpoch cfg tOf vOf l2Of s).L2Loss = s.L2Loss))
    ∧ (∀ (m : ODE_PINN_SOFTBC) (cfg : TrainCfg) (tOf vOf l2Of : ℕ → ℚ),
        ∃ a b c, (Train m cfg tOf vOf l2Of).trainLoss = m.train_loss ++ a
        ∧ (Train m cfg tOf vOf l2Of).validateLoss = m.validate_loss ++ b
        ∧ (Train m cfg tOf vOf l2Of).L2Loss = m.L2_loss ++ c) := by
  refine ⟨?_, ?_, ?_⟩
  · intro f lb ub BC lam nh nl srff m h
    injection h with h'
    rw [← h']
    exact ⟨rfl, rfl, rfl⟩
  · intro cfg tOf vOf l2Of s hs
    have hs' : ¬ s.stopped.isSome = true := by rw [hs]; simp
    have hrw : runEpoch cfg tOf vOf l2Of s
        = stopRule cfg (appendHists cfg tOf vOf l2Of s) := by
      simp [runEpoch, hs']
    have haf := appendHists_fields cfg tOf vOf l2Of s
    have hsr := stopRule_hists cfg (appendHists cfg tOf vOf l2Of s)
    refine ⟨?_, ?_, ?_, ?_⟩
    · rw [hrw, hsr.1, haf.2.1]
    · rw [hrw, hsr.2.1, haf.1]
    · intro hL; rw [hrw, hsr.2.2, haf.2.2.1, if_pos hL]
    · intro hL; rw [hrw, hsr.2.2, haf.2.2.1, hL]; simp
  · intro m cfg tOf vOf l2Of
    exact runEpochs_hist_extend cfg tOf vOf l2Of cfg.max_epoch (startState m cfg)

/-- C10 witness: one non-broken epoch from a 25-entry history at constant
loss 1 appends exactly the value 1 to the validation history. -/
theorem histories_append_only_witness :
    (runEpoch cfgP vOne vOne vOne s25).validateLoss
      = List.replicate 25 1 ++ [1] := by
  have h := (histories_append_only.2.1 cfgP vOne vOne vOne s25 rfl).2.1
  exact h

/-- C9 counterexample: a constructor call with `lb = 1 ≥ ub = 0` and
`n_layers = 2 < 3` returns a model without raising any error; the model's
hidden stack is simply empty. -/
theorem init_accepts_bad_config_cex :
    (ODE_PINN_SOFTBC.init (fun _ _ _ => 0) 1 0 (1, 0, 0) (fun _ => 1)
        4 2 false).isOk = true
    ∧ (ODE_PINN_SOFTBC.init (fun _ _ _ => 0) 1 0 (1, 0, 0) (fun _ => 1)
        4 2 false).toOption.map ODE_PINN_SOFTBC.hidden_block_count = some 0 :=
  ⟨rfl, rfl⟩

/-- C9 amended: the constructor validates nothing and never raises: every
call returns a model, a depth below 3 merely yields zero hidden blocks
(`range` of a negative count is empty), and bounds with `lb ≥ ub` are
accepted as-is. -/
theorem init_never_raises (f : ℚ → ℚ → ℚ → ℚ) (lb ub : ℚ) (BC : ℤ × ℚ × ℚ)
    (lam : ℕ → ℚ) (nh : ℕ) (nl : ℤ) (srff : Bool) :
    (ODE_PINN_SOFTBC.init f lb ub BC lam nh nl srff).isOk = true
    ∧ (∀ m, ODE_PINN_SOFTBC.init f lb ub BC lam nh nl srff = Except.ok m →
        ODE_PINN_SOFTBC.hidden_block_count m = (nl - 3).toNat
        ∧ m.lb = lb ∧ m.ub = ub)
    ∧ (nl < 3 → (nl - 3).toNat = 0) := by
  refine ⟨rfl, ?_, ?_⟩
  · intro m h
    injection h with h'
    rw [← h']
    exact ⟨rfl, rfl, rfl⟩
  · intro h
    omega

/-- C9 witness: at depth 2 the constructor succeeds and the hidden-block
count is zero. -/
theorem init_never_raises_witness :
    (ODE_PINN_SOFTBC.init (fun _ _ _ => 0) 0 1 (1, 0, 1) (fun _ => 1)
        4 2 false).isOk = true
    ∧ ((2 : ℤ) - 3).toNat = 0 := by
  have h := init_never_raises (fun _ _ _ => 0) 0 1 ((1 : ℤ), (0 : ℚ), (1 : ℚ))
    (fun _ => 1) 4 2 false
  exact ⟨h.1, h.2.2 (by norm_num)⟩

/-- C8: with a positive sample count `n` and a batch size `b` strictly larger
than `n`, the train dataloader yields exactly one batch per epoch, and the
display condition is well-defined (no zero-modulus evaluation) at every step
of such an epoch, because the single step `i = 0` short-circuits. -/
theorem single_batch_when_oversized (n b : ℕ) (hn : 0 < n) (hb : n < b) :
    n_train_batches b n = 1
    ∧ ∀ i < n_train_batches b n, (display_step_cond (n_train_batches b n) i).isSome = true := by
  have h1 : n_train_batches b n = 1 := by
    unfold n_train_batches
    exact Nat.div_eq_of_lt_le (by omega) (by omega)
  refine ⟨h1, ?_⟩
  intro i hi
  rw [h1] at hi ⊢
  interval_cases i
  rfl

/-- C8 witness: 10 samples with batch size 32 yield one batch per epoch. -/
theorem single_batch_when_oversized_witness : n_train_batches 32 10 = 1 :=
  (single_batch_when_oversized 10 32 (by norm_num) (by norm_num)).1

/-- C7: with 40 train samples and batch size 20 the dataloader yields two
batches per epoch, and the display path evaluates `(i+1) % round(2/5)` at
step `i = 1`, a modulus by zero (`round(2/5) = 0`): a `ZeroDivisionError`,
so enabling display crashes a configuration that runs fine with display
off; step `i = 0` is saved only by the short-circuit of `or`. -/
theorem display_modulus_zero_bug :
    n_train_batches 20 40 = 2
    ∧ display_step_cond 2 1 = none
    ∧ display_step_cond 2 0 = some true := by
  refine ⟨by norm_num [n_train_batches], ?_, by norm_num [display_step_cond]⟩
  norm_num [display_step_cond, pyMod, roundHalfEven]

/-- Banker's rounding of a third of a natural number always lands on
`(n + 1) / 3` in integer division: the fractional part is 0, 1/3 or 2/3,
never a tie. -/
theorem roundHalfEven_natCast_div_three (n : ℕ) :
    roundHalfEven ((n : ℚ) / 3) = ((n + 1) / 3 : ℕ) := by
  obtain ⟨k, r, hr, rfl⟩ : ∃ k r, r < 3 ∧ n = 3 * k + r :=
    ⟨n / 3, n % 3, Nat.mod_lt _ (by norm_num), by omega⟩
  interval_cases r
  · have hq : ((3 * k + 0 : ℕ) : ℚ) / 3 = (k : ℚ) := by push_cast; ring
    have hrhs : ((3 * k + 0 + 1) / 3 : ℕ) = k := by omega
    rw [hq, hrhs]
    unfold roundHalfEven
    rw [Int.floor_natCast]
    norm_num
  · have hq : ((3 * k + 1 : ℕ) : ℚ) / 3 = (1 / 3 : ℚ) + (k : ℚ) := by push_cast; ring
    have hfl : ⌊(1 / 3 : ℚ) + (k : ℚ)⌋ = (0 : ℤ) + k := by
      rw [Int.floor_add_nat]; norm_num
    have hrhs : ((3 * k + 1 + 1) / 3 : ℕ) = k := by omega
    rw [hq, hrhs]
    unfold roundHalfEven
    rw [hfl]
    norm_num
  · have hq : ((3 * k + 2 : ℕ) : ℚ) / 3 = (2 / 3 : ℚ) + (k : ℚ) := by push_cast; ring
    have hfl : ⌊(2 / 3 : ℚ) + (k : ℚ)⌋ = (0 : ℤ) + k := by
      rw [Int.floor_add_nat]; norm_num
    have hrhs : ((3 * k + 2 + 1) / 3 : ℕ) = k + 1 := by omega
    rw [hq, hrhs]
    unfold roundHalfEven
    rw [hfl]
    norm_num

/-- C6 counterexample: at `train_num = 5` the source's validation-batch size
`round(5/3) = 2` differs from the floor `⌊5/3⌋ = 1` stated by the claim. -/
theorem validate_num_not_floor_cex : validate_num 5 = 2 ∧ (5 : ℕ) / 3 = 1 := by
  constructor
  · norm_num [validate_num, roundHalfEven]
    rfl
  · rfl

/-- C6 amended: the per-epoch validation batch size is `round(train_num/3)`
under banker's rounding, which equals `(train_num + 1) / 3` in integer
division (the floor only when `train_num mod 3 ≠ 2`); the validation loss is
computed by the same residual-loss function as the training loss, with no
gradient update in the embedding. -/
theorem validate_num_amended (n : ℕ) :
    validate_num n = (n + 1) / 3
    ∧ ∀ (m : ODE_PINN_SOFTBC) (yhat d1 d2 : ℚ → ℚ) (x : List ℚ),
        ODE_PINN_SOFTBC.Validate m yhat d1 d2 x
          = ODE_PINN_SOFTBC.ResidualLoss m yhat d1 d2 x := by
  refine ⟨?_, fun _ _ _ _ _ => rfl⟩
  unfold validate_num
  rw [roundHalfEven_natCast_div_three]
  exact Int.toNat_natCast _

/-- Model with Dirichlet-Dirichlet boundary conditions (kind 1). -/
def mKind1 : ODE_PINN_SOFTBC :=
  { f := fun _ _ _ => 0, lb := 0, ub := 1, BC := (1, 0, 1), lambdas := fun _ => 1
    n_hidden := 4, n_layers := 3, set_rff := false
    train_loss := [], validate_loss := [], L2_loss := [] }

/-- Model with Dirichlet-Neumann boundary conditions (kind 2). -/
def mKind2 : ODE_PINN_SOFTBC :=
  { f := fun _ _ _ => 0, lb := 0, ub := 1, BC := (2, 0, 1), lambdas := fun _ => 1
    n_hidden := 4, n_layers := 3, set_rff := false
    train_loss := [], validate_loss := [], L2_loss := [] }

/-- Model with an unrecognized boundary-condition kind (7). -/
def mKind7 : ODE_PINN_SOFTBC :=
  { f := fun _ _ _ => 0, lb := 0, ub := 1, BC := (7, 1, 1), lambdas := fun _ => 1
    n_hidden := 4, n_layers := 3, set_rff := false
    train_loss := [], validate_loss := [], L2_loss := [] }

/-- C2 witness: for the identity network (with derivative one and second
derivative zero) on the batch `[1/2]` and `f ≡ 0`, each of the three branch
formulas evaluates the loss to zero on a model matching its targets —
including the fall-through branch at the unrecognized kind 7. -/
theorem residualLoss_bc_cases_witness :
    ODE_PINN_SOFTBC.ResidualLoss mKind1 (fun t => t) (fun _ => 1) (fun _ => 0) [1/2] = 0
    ∧ ODE_PINN_SOFTBC.ResidualLoss mKind2 (fun t => t) (fun _ => 1) (fun _ => 0) [1/2] = 0
    ∧ ODE_PINN_SOFTBC.ResidualLoss mKind7 (fun t => t) (fun _ => 1) (fun _ => 0) [1/2] = 0 := by
  refine ⟨?_, ?_, ?_⟩
  · have h := (residualLoss_bc_cases mKind1 (fun t => t) (fun _ => 1)
      (fun _ => 0) [1/2]).1 rfl
    rw [h]; norm_num [mKind1]
  · have h := (residualLoss_bc_cases mKind2 (fun t => t) (fun _ => 1)
      (fun _ => 0) [1/2]).2.1 rfl
    rw [h]; norm_num [mKind2]
  · have h := (residualLoss_bc_cases mKind7 (fun t => t) (fun _ => 1)
      (fun _ => 0) [1/2]).2.2 (by norm_num [mKind7]) (by norm_num [mKind7])
    rw [h]; norm_num [mKind7]
